import Mathlib

/-!
Verification of the GPX segment-splitting and length-computation pipeline
of src/scripts/gpx/gpx_split.py.

The splitter streams the flattened point sequence of the parsed input
(all points of all tracks and segments, in nested order) through a buffer;
whenever the buffer reaches `max_segment_points` it emits the buffer as a
named output unit and reseeds a fresh buffer with the just-emitted point.
After the loop, a remainder buffer is emitted only when it holds more than
one point.  The splitter never inspects coordinate values, so its embedding
is polymorphic in the point type; the distance calculator works on
(latitude, longitude) pairs of reals.
-/

namespace GpxSplit

/-! ## Distance calculator (class `Distance` and the external `hs.haversine`) -/

/-- Embeds the computation performed by the external `hs.haversine` on a pair
of (latitude, longitude) points in degrees: the great-circle haversine formula
with the mean earth radius 6371.0088 km (the library default unit). -/
noncomputable def haversine (p1 p2 : ℝ × ℝ) : ℝ :=
  let lat1 := p1.1 * Real.pi / 180
  let lng1 := p1.2 * Real.pi / 180
  let lat2 := p2.1 * Real.pi / 180
  let lng2 := p2.2 * Real.pi / 180
  2 * 6371.0088 *
    Real.arcsin (Real.sqrt (Real.sin ((lat2 - lat1) * 0.5) ^ 2 +
      Real.cos lat1 * Real.cos lat2 * Real.sin ((lng2 - lng1) * 0.5) ^ 2))

namespace Distance

/-- Embeds `Distance.points(p1, p2)`: `hs.haversine(p1, p2)`. -/
noncomputable def points (p1 p2 : ℝ × ℝ) : ℝ := haversine p1 p2

/-- Embeds `Distance.track_length(points)`: the loop accumulating
`Distance.points(prev_point, p)` over consecutive pairs of the sequence
(0 when there is no consecutive pair). -/
noncomputable def track_length : List (ℝ × ℝ) → ℝ
  | [] => 0
  | [_] => 0
  | p :: q :: rest => points p q + track_length (q :: rest)

end Distance

/-! ## Splitter (`Splitter.split`) -/

/-- Embeds the `file_name` lambda of `Splitter.split`:
`f"{name}_{str(count)}"`. -/
def file_name (name : String) (count : Nat) : String :=
  name ++ "_" ++ toString count

/-- Embeds the point loop of `Splitter.split` (lines 78-91): state is the
output counter `count` and the current buffer `buf` (`track_segment.points`);
each point is appended to the buffer, and when the buffer length reaches
`m` (`max_segment_points`) the buffer is emitted under the next name and a
fresh buffer seeded with the just-emitted point is started.  After the loop,
the remainder buffer is emitted only when it holds more than one point
(line 90).  The splitter never reads coordinate values, so the point type is
a parameter. -/
def splitLoop {α : Type} (m : Nat) (base : String) :
    Nat → List α → List α → List (String × List α)
  | count, buf, [] =>
    if 1 < buf.length then [(file_name base count, buf)] else []
  | count, buf, p :: rest =>
    if m ≤ (buf ++ [p]).length then
      (file_name base count, buf ++ [p]) :: splitLoop m base (count + 1) [p] rest
    else
      splitLoop m base count (buf ++ [p]) rest

/-- The triple nested loop of `Splitter.split` appends every point of every
segment of every track to the one shared buffer: it streams the flattened
point sequence, in original nested order. -/
def flattenTracks {α : Type} (tracks : List (List (List α))) : List α :=
  (tracks.map List.flatten).flatten

/-- Embeds `Splitter.split(source, max_segment_points)`: `base` stands for
`Path(source).name.rsplit('.gpx')[0]`, the parsed input is given as its
tracks-of-segments-of-points structure, and the output counter starts at 1.
The result lists the emitted output units (name, point sequence) in emission
order. -/
def split {α : Type} (base : String) (tracks : List (List (List α))) (m : Nat) :
    List (String × List α) :=
  splitLoop m base 1 [] (flattenTracks tracks)

/-! ## Spec-side definitions -/

/-- Stated from the spec (lossless repartition): concatenate the emitted
units' point sequences in order, dropping the one-point overlap at each
boundary (the first point of every unit after the first). -/
def reconstruct {α : Type} : List (List α) → List α
  | [] => []
  | u :: rest => u ++ (rest.map List.tail).flatten

/-- Stated from the spec (`trackLength`): the sum of `pairDistance` over
consecutive pairs of the sequence. -/
noncomputable def pairDistanceSum (pts : List (ℝ × ℝ)) : ℝ :=
  ((pts.zip pts.tail).map (fun q => Distance.points q.1 q.2)).sum

/-! ## Error model for the diagnostic-logging path (`Splitter.__write`) -/

/-- Coordinate ranges the external haversine library accepts (latitude in
[-90, 90] and longitude in [-180, 180]); outside them it raises. -/
def validPoint (p : ℝ × ℝ) : Prop :=
  -90 ≤ p.1 ∧ p.1 ≤ 90 ∧ -180 ≤ p.2 ∧ p.2 ≤ 180

/-- Error raised by the external haversine library on out-of-range
coordinates (ValueError; the spec calls it InvalidCoordinate). -/
inductive DistanceError : Type
  | invalidCoordinate : DistanceError
deriving DecidableEq

open Classical in
/-- Modelled from the spec: the external `hs.haversine` validates both points
(latitude in [-90, 90], longitude in [-180, 180]) and raises InvalidCoordinate
otherwise; on valid input it returns the haversine value. -/
noncomputable def haversineChecked (p1 p2 : ℝ × ℝ) : Except DistanceError ℝ :=
  if validPoint p1 ∧ validPoint p2 then Except.ok (haversine p1 p2)
  else Except.error DistanceError.invalidCoordinate

/-- `Distance.track_length` under the error model: the loop raises at the
first consecutive pair containing an out-of-range point, otherwise returns
the accumulated length. -/
noncomputable def track_lengthChecked : List (ℝ × ℝ) → Except DistanceError ℝ
  | [] => Except.ok 0
  | [_] => Except.ok 0
  | p :: q :: rest =>
    match haversineChecked p q with
    | Except.error e => Except.error e
    | Except.ok d =>
      match track_lengthChecked (q :: rest) with
      | Except.error e => Except.error e
      | Except.ok l => Except.ok (d + l)

/-- Embeds `Splitter.__write` together with the `debug_enabled` decorator on
`__log_track_len`: when debug logging is enabled, the track length of the
unit is computed first (and an exception there propagates, as the code has
no handler); only afterwards is the unit handed to `writer.write`.
`Except.ok u` means the unit reached the writer and was written;
`Except.error e` means the logging step raised before the write. -/
noncomputable def writeUnit (debug : Bool) (u : String × List (ℝ × ℝ)) :
    Except DistanceError (String × List (ℝ × ℝ)) :=
  if debug then
    match track_lengthChecked u.2 with
    | Except.error e => Except.error e
    | Except.ok _ => Except.ok u
  else Except.ok u

/-! ## Bridge lemmas about lists and the split loop -/

theorem tail_append_left {α : Type} {l : List α} (l' : List α) (h : l ≠ []) :
    (l ++ l').tail = l.tail ++ l' := by
  cases l with
  | nil => exact absurd rfl h
  | cons a l => rfl

theorem splitLoop_nil {α : Type} (m : Nat) (base : String) (count : Nat) (buf : List α) :
    splitLoop m base count buf [] =
      if 1 < buf.length then [(file_name base count, buf)] else [] := rfl

theorem splitLoop_cons {α : Type} (m : Nat) (base : String) (count : Nat) (buf : List α)
    (p : α) (rest : List α) :
    splitLoop m base count buf (p :: rest) =
      if m ≤ (buf ++ [p]).length then
        (file_name base count, buf ++ [p]) :: splitLoop m base (count + 1) [p] rest
      else splitLoop m base count (buf ++ [p]) rest := rfl

theorem splitLoop_empty_buf {α : Type} {m : Nat} (hm : 2 ≤ m) (base : String) (count : Nat)
    (p : α) (rest : List α) :
    splitLoop m base count [] (p :: rest) = splitLoop m base count [p] rest := by
  rw [splitLoop_cons, if_neg (by simp; omega)]
  rfl

theorem splitLoop_head {α : Type} (m : Nat) (base : String) :
    ∀ (pts buf : List α) (count : Nat) (u : String × List α) (S : List (String × List α)),
      buf ≠ [] → splitLoop m base count buf pts = u :: S → u.2.head? = buf.head? := by
  intro pts
  induction pts with
  | nil =>
    intro buf count u S hbuf h
    rw [splitLoop_nil] at h
    by_cases h1 : 1 < buf.length
    · rw [if_pos h1] at h
      injection h with h1 h2
      subst h1
      rfl
    · rw [if_neg h1] at h
      simp at h
  | cons p rest ih =>
    intro buf count u S hbuf h
    rw [splitLoop_cons] at h
    by_cases hlen : m ≤ (buf ++ [p]).length
    · rw [if_pos hlen] at h
      injection h with h1 h2
      subst h1
      exact List.head?_append_of_ne_nil buf hbuf
    · rw [if_neg hlen] at h
      have hrec := ih (buf ++ [p]) count u S (by simp) h
      rw [hrec]
      exact List.head?_append_of_ne_nil buf hbuf

theorem splitLoop_tails {α : Type} (m : Nat) (base : String) :
    ∀ (pts buf : List α) (count : Nat), buf ≠ [] →
      ((splitLoop m base count buf pts).map (fun u => u.2.tail)).flatten =
        (buf ++ pts).tail := by
  intro pts
  induction pts with
  | nil =>
    intro buf count hbuf
    rw [splitLoop_nil]
    by_cases h1 : 1 < buf.length
    · rw [if_pos h1]; simp
    · rw [if_neg h1]
      have hl : buf.length = 1 := by
        have := List.length_pos.mpr hbuf
        omega
      obtain ⟨a, rfl⟩ := List.length_eq_one.mp hl
      simp
  | cons p rest ih =>
    intro buf count hbuf
    rw [splitLoop_cons]
    by_cases hlen : m ≤ (buf ++ [p]).length
    · rw [if_pos hlen]
      cases rest with
      | nil =>
        simp [splitLoop_nil, tail_append_left _ hbuf]
      | cons q rest2 =>
        simp only [List.map_cons, List.flatten_cons]
        rw [ih [p] (count + 1) (by simp)]
        rw [tail_append_left _ hbuf, tail_append_left _ hbuf]
        simp
    · rw [if_neg hlen]
      rw [ih (buf ++ [p]) count (by simp)]
      congr 1
      simp

/-! ## C1: lossless repartition -/

/-- C1 counterexample: the claim fails on a one-point input.  With
`maxPoints = 2` and a single track holding a single segment with the single
point 0, `Splitter.split` emits no output unit at all (the final one-point
buffer is dropped by the `> 1` check on line 90), so the reconstruction of
the emitted units is empty and does not equal the flattened input `[0]`. -/
theorem C1_counterexample :
    reconstruct ((split "t" [[[0]]] 2).map Prod.snd) ≠ flattenTracks [[[(0 : Nat)]]] := by
  decide

/-- C1 (amended): for every input track collection whose flattened point
sequence does not consist of exactly one point, and every `maxPoints ≥ 2`,
concatenating the point sequences of all output units emitted by
`Splitter.split`, in emission order and dropping the one-point overlap at
each boundary, reconstructs exactly, in order, the flattened input point
sequence.  (A one-point input emits nothing, so that point is lost.) -/
theorem C1_lossless {α : Type} (base : String) (m : Nat) (tracks : List (List (List α)))
    (hm : 2 ≤ m) (hn : (flattenTracks tracks).length ≠ 1) :
    reconstruct ((split base tracks m).map Prod.snd) = flattenTracks tracks := by
  unfold split
  rcases hflat : flattenTracks tracks with _ | ⟨p, rest⟩
  · simp [splitLoop_nil, reconstruct]
  · rw [splitLoop_empty_buf hm]
    have htails := splitLoop_tails m base rest [p] 1 (by simp)
    rcases hS : splitLoop m base 1 [p] rest with _ | ⟨u, S2⟩
    · rw [hS] at htails
      simp at htails
      subst htails
      rw [hflat] at hn
      simp at hn
    · have hhead := splitLoop_head m base rest [p] 1 u S2 (by simp) hS
      rw [hS] at htails
      simp only [List.head?_cons] at hhead
      have hu : p :: u.2.tail = u.2 := List.cons_head?_tail (by rw [hhead]; rfl)
      simp only [List.map_cons, List.flatten_cons, List.singleton_append, List.tail_cons]
        at htails
      simp only [List.map_cons, reconstruct, List.map_map]
      rw [← hu, List.cons_append, ← htails]
      rfl

/-- C1 witness: the amended theorem applied to a concrete three-point input
with `maxPoints = 2`. -/
theorem C1_lossless_witness :
    reconstruct ((split "t" [[[0, 1, 2]]] 2).map Prod.snd) =
      flattenTracks [[[(0 : Nat), 1, 2]]] :=
  C1_lossless "t" 2 [[[0, 1, 2]]] (by decide) (by decide)

/-! ## C2: size bounds of emitted units -/

theorem splitLoop_sizes {α : Type} {m : Nat} (hm : 2 ≤ m) (base : String) :
    ∀ (pts buf : List α) (count : Nat), buf.length < m →
      (∀ u ∈ (splitLoop m base count buf pts).dropLast, u.2.length = m) ∧
      (∀ u, (splitLoop m base count buf pts).getLast? = some u →
        2 ≤ u.2.length ∧ u.2.length ≤ m) := by
  intro pts
  induction pts with
  | nil =>
    intro buf count hlt
    rw [splitLoop_nil]
    by_cases h1 : 1 < buf.length
    · rw [if_pos h1]
      refine ⟨by simp, ?_⟩
      intro u hu
      simp at hu
      subst hu
      exact ⟨h1, le_of_lt hlt⟩
    · rw [if_neg h1]
      exact ⟨by simp, by simp⟩
  | cons p rest ih =>
    intro buf count hlt
    rw [splitLoop_cons]
    by_cases hlen : m ≤ (buf ++ [p]).length
    · rw [if_pos hlen]
      have hmb : (buf ++ [p]).length = m := by
        simp only [List.length_append, List.length_singleton] at hlen ⊢
        omega
      have hrec := ih [p] (count + 1) (by simp; omega)
      rcases hS2 : splitLoop m base (count + 1) [p] rest with _ | ⟨v, S3⟩
      · refine ⟨by simp, ?_⟩
        intro u hu
        simp at hu
        subst hu
        rw [hmb]
        exact ⟨hm, le_rfl⟩
      · rw [hS2] at hrec
        constructor
        · intro u hu
          rw [List.dropLast_cons₂] at hu
          rcases List.mem_cons.mp hu with h | h
          · subst h
            exact hmb
          · exact hrec.1 u h
        · intro u hu
          rw [List.getLast?_cons_cons] at hu
          exact hrec.2 u hu
    · rw [if_neg hlen]
      exact ih (buf ++ [p]) count (by simp at hlen ⊢; omega)

/-- C2: for every input and every `maxPoints ≥ 2`, every output unit emitted
by `Splitter.split` except possibly the last holds exactly `maxPoints`
points; the last unit holds between 2 and `maxPoints` points; and the final
remainder check emits nothing when the remainder buffer holds 0 or 1
points. -/
theorem C2_bound {α : Type} (base : String) (m : Nat) (tracks : List (List (List α)))
    (hm : 2 ≤ m) :
    (∀ u ∈ (split base tracks m).dropLast, u.2.length = m) ∧
    (∀ u, (split base tracks m).getLast? = some u →
      2 ≤ u.2.length ∧ u.2.length ≤ m) ∧
    (∀ (count : Nat) (buf : List α), buf.length ≤ 1 →
      splitLoop m base count buf [] = []) := by
  unfold split
  refine ⟨(splitLoop_sizes hm base (flattenTracks tracks) [] 1 (by simp; omega)).1,
          (splitLoop_sizes hm base (flattenTracks tracks) [] 1 (by simp; omega)).2, ?_⟩
  intro count buf hb
  rw [splitLoop_nil, if_neg (by omega)]

/-- C2 witness: the size bound applied to the last unit that `split` emits on
a concrete three-point input with `maxPoints = 2` (that unit is
`("t_2", [1, 2])`). -/
theorem C2_bound_witness :
    2 ≤ (("t_2", [1, 2]) : String × List Nat).2.length ∧
      (("t_2", [1, 2]) : String × List Nat).2.length ≤ 2 :=
  (C2_bound "t" 2 [[[0, 1, 2]]] (by decide)).2.1 ("t_2", [1, 2]) (by decide)

/-! ## C3: one-point overlap between consecutive units -/

theorem splitLoop_chain {α : Type} (m : Nat) (base : String) :
    ∀ (pts buf : List α) (count : Nat),
      List.Chain'
        (fun u v : String × List α => ∃ q, u.2.getLast? = some q ∧ v.2.head? = some q)
        (splitLoop m base count buf pts) := by
  intro pts
  induction pts with
  | nil =>
    intro buf count
    rw [splitLoop_nil]
    by_cases h1 : 1 < buf.length
    · rw [if_pos h1]
      exact List.chain'_singleton _
    · rw [if_neg h1]
      exact List.chain'_nil
  | cons p rest ih =>
    intro buf count
    rw [splitLoop_cons]
    by_cases hlen : m ≤ (buf ++ [p]).length
    · rw [if_pos hlen]
      rw [List.chain'_cons']
      refine ⟨?_, ih [p] (count + 1)⟩
      intro v hv
      rcases hS2 : splitLoop m base (count + 1) [p] rest with _ | ⟨w, S3⟩
      · rw [hS2] at hv
        simp at hv
      · rw [hS2] at hv
        simp at hv
        subst hv
        refine ⟨p, List.getLast?_concat _, ?_⟩
        have := splitLoop_head m base rest [p] (count + 1) w S3 (by simp) hS2
        rw [this]
        rfl
    · rw [if_neg hlen]
      exact ih (buf ++ [p]) count

/-- C3: for every input and every `maxPoints ≥ 2`, any two consecutively
emitted output units overlap in exactly the boundary point: the last point
of a unit equals the first point of the next unit (each fresh buffer is
seeded with the just-emitted point). -/
theorem C3_overlap {α : Type} (base : String) (m : Nat) (tracks : List (List (List α)))
    (_hm : 2 ≤ m) :
    List.Chain'
      (fun u v : String × List α => ∃ q, u.2.getLast? = some q ∧ v.2.head? = some q)
      (split base tracks m) :=
  splitLoop_chain m base (flattenTracks tracks) [] 1

/-- C3 witness: the overlap chain on a concrete five-point input split with
`maxPoints = 3` (units `[0, 1, 2]`, `[2, 3, 4]`). -/
theorem C3_overlap_witness :
    List.Chain'
      (fun u v : String × List Nat => ∃ q, u.2.getLast? = some q ∧ v.2.head? = some q)
      (split "t" [[[0, 1, 2, 3, 4]]] 3) :=
  C3_overlap "t" 3 [[[0, 1, 2, 3, 4]]] (by decide)

/-! ## C8: monotonic gap-free naming -/

theorem splitLoop_names {α : Type} (m : Nat) (base : String) :
    ∀ (pts buf : List α) (count : Nat),
      (splitLoop m base count buf pts).map Prod.fst =
        (List.range (splitLoop m base count buf pts).length).map
          (fun i => file_name base (count + i)) := by
  intro pts
  induction pts with
  | nil =>
    intro buf count
    rw [splitLoop_nil]
    by_cases h1 : 1 < buf.length
    · rw [if_pos h1]
      simp [List.range_succ]
    · rw [if_neg h1]
      simp
  | cons p rest ih =>
    intro buf count
    rw [splitLoop_cons]
    by_cases hlen : m ≤ (buf ++ [p]).length
    · rw [if_pos hlen]
      simp only [List.map_cons, List.length_cons]
      rw [ih [p] (count + 1), List.range_succ_eq_map]
      simp only [List.map_cons, List.map_map, Nat.add_zero]
      congr 1
      refine List.map_congr_left ?_
      intro i _
      simp only [Function.comp_apply]
      have : count + 1 + i = count + (i + 1) := by omega
      rw [this]
    · rw [if_neg hlen]
      exact ih (buf ++ [p]) count

/-- C8: for every input and every `maxPoints ≥ 2`, the names of the emitted
output units are exactly the base name suffixed with a strictly increasing,
gap-free counter starting at 1 (`base_1`, `base_2`, ...), in emission
order. -/
theorem C8_names {α : Type} (base : String) (m : Nat) (tracks : List (List (List α)))
    (_hm : 2 ≤ m) :
    (split base tracks m).map Prod.fst =
      (List.range (split base tracks m).length).map (fun i => file_name base (i + 1)) := by
  unfold split
  rw [splitLoop_names]
  exact List.map_congr_left (fun i _ => by rw [Nat.add_comm])

/-- C8 witness: the naming law on a concrete three-point input split with
`maxPoints = 2` (two units, named `t_1` and `t_2`). -/
theorem C8_names_witness :
    (split "t" [[[0, 1, 2]]] 2).map Prod.fst =
      (List.range (split "t" [[[(0 : Nat), 1, 2]]] 2).length).map
        (fun i => file_name "t" (i + 1)) :=
  C8_names "t" 2 [[[0, 1, 2]]] (by decide)

/-! ## C10: the partition shape ignores coordinate values -/

theorem splitLoop_shape {α β : Type} (m : Nat) (base : String) :
    ∀ (pts1 : List α) (pts2 : List β) (buf1 : List α) (buf2 : List β) (count : Nat),
      pts1.length = pts2.length → buf1.length = buf2.length →
      (splitLoop m base count buf1 pts1).map (fun u => (u.1, u.2.length)) =
        (splitLoop m base count buf2 pts2).map (fun u => (u.1, u.2.length)) := by
  intro pts1
  induction pts1 with
  | nil =>
    intro pts2 buf1 buf2 count hp hb
    have h2 : pts2 = [] := List.eq_nil_of_length_eq_zero hp.symm
    subst h2
    rw [splitLoop_nil, splitLoop_nil]
    by_cases h1 : 1 < buf1.length
    · rw [if_pos h1, if_pos (hb ▸ h1)]
      simp [hb]
    · rw [if_neg h1, if_neg (hb ▸ h1)]
      rfl
  | cons p rest1 ih =>
    intro pts2 buf1 buf2 count hp hb
    rcases pts2 with _ | ⟨q, rest2⟩
    · simp at hp
    · simp only [List.length_cons] at hp
      rw [splitLoop_cons, splitLoop_cons]
      have hb2 : (buf1 ++ [p]).length = (buf2 ++ [q]).length := by simp [hb]
      by_cases hlen : m ≤ (buf1 ++ [p]).length
      · rw [if_pos hlen, if_pos (hb2 ▸ hlen)]
        simp only [List.map_cons]
        congr 1
        · rw [hb2]
        · exact ih rest2 [p] [q] (count + 1) (by omega) (by simp)
      · rw [if_neg hlen, if_neg (hb2 ▸ hlen)]
        exact ih rest2 (buf1 ++ [p]) (buf2 ++ [q]) count (by omega) hb2

/-- C10: the partition structure produced by `Splitter.split` (number of
units, each unit's point count, each unit's name) depends only on the base
name, the flattened point count and `maxPoints`, never on coordinate values:
two inputs with equal base name and equal flattened point counts, even over
different point types, yield unit sequences of identical names and sizes. -/
theorem C10_shape {α β : Type} (base : String) (m : Nat)
    (tracks1 : List (List (List α))) (tracks2 : List (List (List β)))
    (_hm : 2 ≤ m)
    (hlen : (flattenTracks tracks1).length = (flattenTracks tracks2).length) :
    (split base tracks1 m).map (fun u => (u.1, u.2.length)) =
      (split base tracks2 m).map (fun u => (u.1, u.2.length)) :=
  splitLoop_shape m base (flattenTracks tracks1) (flattenTracks tracks2) [] [] 1 hlen rfl

/-- C10 witness: a three-point `Nat` input in one segment and a three-point
`Bool` input spread over two tracks produce identically named and sized
units under `maxPoints = 2`. -/
theorem C10_shape_witness :
    (split "t" [[[1, 2, 3]]] 2).map (fun u => (u.1, u.2.length)) =
      (split "t" [[[true], [false]], [[true]]] 2).map (fun u => (u.1, u.2.length)) :=
  C10_shape "t" 2 [[[1, 2, 3]]] [[[true], [false]], [[true]]] (by decide) (by decide)

/-! ## C4: no maxPoints validation in the code -/

/-- C4 counterexample: `Splitter.split` contains no validation of
`max_segment_points` and no failure path for it: invoked with
`maxPoints = 1` on a three-point input it reads the input and emits three
units (rather than failing with InvalidConfiguration and emitting none). -/
theorem C4_counterexample :
    split "t" [[[(0 : Nat), 1, 2]]] 1 =
        [("t_1", [0]), ("t_2", [0, 1]), ("t_3", [1, 2])] ∧
      split "t" [[[(0 : Nat), 1, 2]]] 1 ≠ [] := by
  decide

/-- C4 (amended): the code performs no `maxPoints` validation: for
`maxPoints < 2`, `Splitter.split` does not fail but reads the input and
applies the same greedy emission rule, so any input with at least one point
yields at least one output unit. -/
theorem C4_no_validation {α : Type} (base : String) (m : Nat) (p : α) (ps : List α)
    (hm : m < 2) :
    1 ≤ (split base [[p :: ps]] m).length := by
  unfold split
  have hflat : flattenTracks [[p :: ps]] = p :: ps := by simp [flattenTracks]
  rw [hflat, splitLoop_cons, if_pos (by simp; omega)]
  simp

/-- C4 witness: the amended behaviour at `maxPoints = 1` on a one-point
input. -/
theorem C4_no_validation_witness : 1 ≤ (split "t" [[[(0 : Nat)]]] 1).length :=
  C4_no_validation "t" 1 0 [] (by decide)

/-! ## C7: trackLength is the consecutive-pair sum -/

theorem track_length_eq_pairSum (pts : List (ℝ × ℝ)) :
    Distance.track_length pts = pairDistanceSum pts := by
  induction pts with
  | nil => simp [Distance.track_length, pairDistanceSum]
  | cons p rest ih =>
    cases rest with
    | nil => simp [Distance.track_length, pairDistanceSum]
    | cons q rest2 =>
      simp only [pairDistanceSum, List.tail_cons, List.zip_cons_cons, List.map_cons,
        List.sum_cons] at ih ⊢
      rw [show Distance.track_length (p :: q :: rest2) =
        Distance.points p q + Distance.track_length (q :: rest2) from rfl, ih]

/-- C7: `trackLength` returns the sum of `pairDistance` over all consecutive
pairs of the given ordered sequence, and returns 0 for every sequence of
length 0 or 1. -/
theorem C7_trackLength (pts : List (ℝ × ℝ)) :
    Distance.track_length pts = pairDistanceSum pts ∧
      (pts.length ≤ 1 → Distance.track_length pts = 0) := by
  refine ⟨track_length_eq_pairSum pts, ?_⟩
  intro h
  rcases pts with _ | ⟨p, _ | ⟨q, rest⟩⟩
  · rfl
  · rfl
  · simp at h

/-- C7 witness: a one-point sequence has track length 0. -/
theorem C7_trackLength_witness : Distance.track_length [((0 : ℝ), (0 : ℝ))] = 0 :=
  (C7_trackLength [((0 : ℝ), (0 : ℝ))]).2 (by decide)

/-! ## C9: the split preserves total track length -/

theorem track_length_append_cons (xs : List (ℝ × ℝ)) (y : ℝ × ℝ) (ys : List (ℝ × ℝ)) :
    Distance.track_length (xs ++ y :: ys) =
      Distance.track_length (xs ++ [y]) + Distance.track_length (y :: ys) := by
  induction xs with
  | nil => simp [Distance.track_length]
  | cons x xs ih =>
    cases xs with
    | nil =>
      rw [show ([x] ++ y :: ys) = x :: y :: ys from rfl,
        show Distance.track_length (x :: y :: ys) =
          Distance.points x y + Distance.track_length (y :: ys) from rfl,
        show ([x] ++ [y]) = [x, y] from rfl,
        show Distance.track_length [x, y] = Distance.points x y + 0 from rfl]
      ring
    | cons x2 xs2 =>
      simp only [List.cons_append] at ih ⊢
      rw [show Distance.track_length (x :: x2 :: (xs2 ++ y :: ys)) =
          Distance.points x x2 + Distance.track_length (x2 :: (xs2 ++ y :: ys)) from rfl,
        show Distance.track_length (x :: x2 :: (xs2 ++ [y])) =
          Distance.points x x2 + Distance.track_length (x2 :: (xs2 ++ [y])) from rfl,
        ih]
      ring

theorem splitLoop_track_length (m : Nat) (base : String) :
    ∀ (pts buf : List (ℝ × ℝ)) (count : Nat), buf ≠ [] →
      ((splitLoop m base count buf pts).map (fun u => Distance.track_length u.2)).sum =
        Distance.track_length (buf ++ pts) := by
  intro pts
  induction pts with
  | nil =>
    intro buf count hbuf
    rw [splitLoop_nil]
    by_cases h1 : 1 < buf.length
    · rw [if_pos h1]
      simp
    · rw [if_neg h1]
      have hl : buf.length = 1 := by
        have := List.length_pos.mpr hbuf
        omega
      obtain ⟨a, rfl⟩ := List.length_eq_one.mp hl
      simp [Distance.track_length]
  | cons p rest ih =>
    intro buf count hbuf
    rw [splitLoop_cons]
    by_cases hlen : m ≤ (buf ++ [p]).length
    · rw [if_pos hlen]
      simp only [List.map_cons, List.sum_cons]
      rw [ih [p] (count + 1) (by simp),
        show (([p] : List (ℝ × ℝ)) ++ rest) = p :: rest from rfl,
        track_length_append_cons buf p rest]
    · rw [if_neg hlen]
      rw [ih (buf ++ [p]) count (by simp)]
      congr 1
      simp

/-- C9: for every input and every `maxPoints ≥ 2`, the sum of `trackLength`
over all emitted output units equals `trackLength` of the full flattened
input point sequence: each boundary pair lies inside exactly one unit (the
overlap point seeds the next unit), and a dropped one-point remainder is a
duplicate of the previous unit's last point, so no inter-point distance is
lost or double-counted. -/
theorem C9_length_preserved (base : String) (m : Nat)
    (tracks : List (List (List (ℝ × ℝ)))) (hm : 2 ≤ m) :
    ((split base tracks m).map (fun u => Distance.track_length u.2)).sum =
      Distance.track_length (flattenTracks tracks) := by
  unfold split
  rcases hflat : flattenTracks tracks with _ | ⟨p, rest⟩
  · simp [splitLoop_nil, Distance.track_length]
  · rw [splitLoop_empty_buf hm, splitLoop_track_length m base rest [p] 1 (by simp)]
    rfl

/-- C9 witness: the length-preservation law on a concrete one-point input
with `maxPoints = 2`. -/
theorem C9_length_preserved_witness :
    ((split "t" [[[((0 : ℝ), (0 : ℝ))]]] 2).map
        (fun u => Distance.track_length u.2)).sum =
      Distance.track_length (flattenTracks [[[((0 : ℝ), (0 : ℝ))]]]) :=
  C9_length_preserved "t" 2 [[[((0 : ℝ), (0 : ℝ))]]] (by decide)

/-! ## C6: algebraic properties of pairDistance -/

theorem sin_sub_half_sq (x y : ℝ) :
    Real.sin ((x - y) * 0.5) ^ 2 = Real.sin ((y - x) * 0.5) ^ 2 := by
  rw [show (x - y) * 0.5 = -((y - x) * 0.5) by ring, Real.sin_neg]
  ring

theorem haversine_comm (a b : ℝ × ℝ) : haversine a b = haversine b a := by
  simp only [haversine]
  rw [sin_sub_half_sq (b.1 * Real.pi / 180) (a.1 * Real.pi / 180),
    sin_sub_half_sq (b.2 * Real.pi / 180) (a.2 * Real.pi / 180),
    mul_comm (Real.cos (a.1 * Real.pi / 180)) (Real.cos (b.1 * Real.pi / 180))]

theorem haversine_self (a : ℝ × ℝ) : haversine a a = 0 := by
  simp only [haversine]
  rw [sub_self, sub_self]
  simp [Real.sin_zero, Real.sqrt_zero, Real.arcsin_zero]

/-- C6 counterexample: `pairDistance` is not zero only for identical points.
The two distinct in-range points (90, 0) and (90, 10) sit at the north pole,
where every longitude coincides; the haversine formula yields distance 0 for
them (the latitude difference vanishes and `cos(pi/2) = 0` kills the
longitude term). -/
theorem C6_counterexample :
    validPoint (90, 0) ∧ validPoint (90, 10) ∧
      Distance.points (90, 0) (90, 10) = 0 ∧
      ((90 : ℝ), (0 : ℝ)) ≠ ((90 : ℝ), (10 : ℝ)) := by
  refine ⟨by norm_num [validPoint], by norm_num [validPoint], ?_, by norm_num [Prod.ext_iff]⟩
  have hgoal : Distance.points (90, 0) (90, 10) =
      2 * 6371.0088 * Real.arcsin (Real.sqrt
        (Real.sin (((90 : ℝ) * Real.pi / 180 - (90 : ℝ) * Real.pi / 180) * 0.5) ^ 2 +
          Real.cos ((90 : ℝ) * Real.pi / 180) * Real.cos ((90 : ℝ) * Real.pi / 180) *
            Real.sin (((10 : ℝ) * Real.pi / 180 - (0 : ℝ) * Real.pi / 180) * 0.5) ^ 2)) := rfl
  have hc : Real.cos ((90 : ℝ) * Real.pi / 180) = 0 := by
    rw [show (90 : ℝ) * Real.pi / 180 = Real.pi / 2 by ring]
    exact Real.cos_pi_div_two
  rw [hgoal, sub_self, hc]
  simp [Real.sin_zero, Real.sqrt_zero, Real.arcsin_zero]

/-- C6 (amended): for points with latitudes in [-90, 90] and longitudes in
[-180, 180], `pairDistance` is symmetric and `pairDistance(a, a) = 0`; but
zero distance does not imply identical points (distinct points at a pole
have distance 0). -/
theorem C6_pairDistance (a b : ℝ × ℝ) (_ha : validPoint a) (_hb : validPoint b) :
    Distance.points a b = Distance.points b a ∧ Distance.points a a = 0 :=
  ⟨haversine_comm a b, haversine_self a⟩

/-- C6 witness: symmetry and self-distance zero at the concrete in-range
points (0, 0) and (1, 1). -/
theorem C6_pairDistance_witness :
    Distance.points (0, 0) (1, 1) = Distance.points (1, 1) (0, 0) ∧
      Distance.points ((0 : ℝ), (0 : ℝ)) ((0 : ℝ), (0 : ℝ)) = 0 :=
  C6_pairDistance (0, 0) (1, 1) (by norm_num [validPoint]) (by norm_num [validPoint])

/-! ## C5: an invalid coordinate is not confined to the logging step -/

theorem haversineChecked_error_left {p q : ℝ × ℝ} (hp : ¬ validPoint p) :
    haversineChecked p q = Except.error DistanceError.invalidCoordinate := by
  unfold haversineChecked
  rw [if_neg]
  tauto

/-- C5 counterexample: the claim fails on the code.  `Splitter.__write` runs
`__log_track_len` (active when debug logging is enabled) before
`writer.write`, with no exception handler: for the unit whose points are
[(200, 0), (0, 0)] — latitude 200 out of range — the distance computation
raises, the error propagates, and the unit is never handed to the writer,
contradicting "the segment is still written". -/
theorem C5_counterexample :
    writeUnit true ("t_1", [((200 : ℝ), 0), (0, 0)]) =
      Except.error DistanceError.invalidCoordinate := by
  have h : haversineChecked ((200 : ℝ), 0) (0, 0) =
      Except.error DistanceError.invalidCoordinate :=
    haversineChecked_error_left (by norm_num [validPoint])
  have h2 : track_lengthChecked [((200 : ℝ), 0), (0, 0)] =
      Except.error DistanceError.invalidCoordinate := by
    unfold track_lengthChecked
    rw [h]
  unfold writeUnit
  rw [if_pos rfl, h2]

/-- C5 (amended): the coordinate failure is not isolated to the logging
step.  When diagnostic logging is disabled, the length computation never
runs and every unit is handed to the writer; but when it is enabled, an
out-of-range point in a unit of at least two points makes the length
computation raise before `writer.write` is called, so the unit is not
written and the error propagates. -/
theorem C5_write_behavior (name : String) (seg : List (ℝ × ℝ)) :
    writeUnit false (name, seg) = Except.ok (name, seg) ∧
      (∀ (p q : ℝ × ℝ) (rest : List (ℝ × ℝ)), ¬ validPoint p →
        writeUnit true (name, p :: q :: rest) =
          Except.error DistanceError.invalidCoordinate) := by
  constructor
  · unfold writeUnit
    rw [if_neg (by simp)]
  · intro p q rest hp
    have h2 : track_lengthChecked (p :: q :: rest) =
        Except.error DistanceError.invalidCoordinate := by
      unfold track_lengthChecked
      rw [haversineChecked_error_left hp]
    unfold writeUnit
    rw [if_pos rfl, h2]

/-- C5 witness: with debug logging enabled, a three-point unit whose first
point has latitude 200 is rejected before reaching the writer. -/
theorem C5_write_behavior_witness :
    writeUnit true ("x_1", [((200 : ℝ), 0), (0, 0), (1, 1)]) =
      Except.error DistanceError.invalidCoordinate :=
  (C5_write_behavior "x_1" []).2 (200, 0) (0, 0) [(1, 1)] (by norm_num [validPoint])

end GpxSplit
